import Mathlib

/-!
# Verification of the migration-application protocol

This file gives a shallow embedding of the database-migration machinery of the
repository and proves the specified properties about it.  The embedded code is:

* the container entrypoint's migration loop (`run-migration.ts`, concatenated
  shell part): the helpers `is_migration_applied` and `mark_migration_applied`
  over the status file `/app/data/.migration_status`, the `for migration_file
  in "$MIGRATIONS_DIR"/*.sql` loop whose body runs `psql` and then either
  marks the migration applied or does `exit 1`, and the `pg_isready` wait
  loop preceding it;
* the standalone TypeScript runner `runUnreadMessageMigration` with its
  `BEGIN` / `COMMIT` / `ROLLBACK` transaction bracket and its exit paths.

Modelling conventions:

* The target database is an abstract state type `d`; executing one migration
  file with `psql` is an oracle `exec : String -> d -> Option d` (`none`
  models a failing invocation, in which case the loop sees a non-zero status
  and the database state is the one the oracle left, here the unchanged
  input, i.e. the transactional case).
* The status file is a list of `name:applied:timestamp` records; `none` at the
  `Option StatusFile` level models the file not existing yet.  The shell
  helpers match names with `grep`/`sed` anchored patterns; the embedding
  treats a migration name as an exact token.
* The shell glob `"$MIGRATIONS_DIR"/*.sql` yields the `.sql` files of the
  directory in lexicographic (byte-wise) filename order; the embedding takes
  the unordered directory listing and sorts it with an explicit lexicographic
  comparator on the character lists of the names.
-/

set_option linter.unusedVariables false

/-- One line of the migration status file `/app/data/.migration_status`,
written by `mark_migration_applied` as `<name>:applied:<timestamp>`. -/
structure MigrationRecord where
  name : String
  status : String
  timestamp : String
deriving DecidableEq, Repr

/-- The parsed content of the status file (the auto-generated comment header
is not a record). -/
abbrev StatusFile := List MigrationRecord

/-- Shell helper `is_migration_applied`: if the status file exists, succeed
iff some line matches `^<name>:applied:`; if the file does not exist, return
failure (`return 1`), i.e. not applied. -/
def is_migration_applied (store : Option StatusFile) (name : String) : Bool :=
  match store with
  | some entries => entries.any fun e => decide (e.name = name) && decide (e.status = "applied")
  | none => false

/-- Shell helper `mark_migration_applied`: create the status file if absent;
then, if a line `^<name>:` already exists, rewrite every such line to
`<name>:applied:<timestamp>` (the `sed -i` branch), otherwise append a fresh
`<name>:applied:<timestamp>` line. -/
def mark_migration_applied (store : Option StatusFile) (name timestamp : String) : StatusFile :=
  let entries := store.getD []
  if entries.any fun e => decide (e.name = name) then
    entries.map fun e =>
      if e.name = name then ⟨name, "applied", timestamp⟩ else e
  else
    entries ++ [⟨name, "applied", timestamp⟩]

/-- Lexicographic comparison of character lists, the order in which the shell
glob enumerates filenames (byte-wise `LC_COLLATE=C` comparison). -/
def charListLe : List Char → List Char → Bool
  | [], _ => true
  | _ :: _, [] => false
  | a :: as, b :: bs => if a < b then true else if b < a then false else charListLe as bs

/-- Lexicographic filename order used for migration discovery. -/
def nameLe (a b : String) : Bool := charListLe a.data b.data

/-- The glob pattern `*.sql`: the filename ends with `.sql`. -/
def matchesSqlGlob (f : String) : Bool := List.isSuffixOf ".sql".data f.data

theorem charListLe_iff_not_lex : ∀ as bs : List Char,
    charListLe as bs = true ↔ ¬ List.Lex (· < ·) bs as := by
  intro as
  induction as with
  | nil =>
    intro bs
    simp [charListLe, List.Lex.not_nil_right]
  | cons a as ih =>
    intro bs
    cases bs with
    | nil =>
      simp [charListLe]
      exact List.Lex.nil
    | cons b bs =>
      by_cases hab : a < b
      · simp [charListLe, hab]
        intro h
        cases h with
        | cons h => exact absurd hab (lt_irrefl _)
        | rel h => exact absurd (lt_trans hab h) (lt_irrefl _)
      · by_cases hba : b < a
        · simp [charListLe, hab, hba]
          exact List.Lex.rel hba
        · have heq : a = b := le_antisymm (le_of_not_lt hba) (le_of_not_lt hab)
          subst heq
          simp [charListLe, hab, List.Lex.cons_iff]
          exact ih bs

/-- The discovery comparator agrees with the standard lexicographic order on
strings. -/
theorem nameLe_iff (a b : String) : nameLe a b = true ↔ a ≤ b := by
  rw [String.le_iff_toList_le]
  show charListLe a.data b.data = true ↔ a.data ≤ b.data
  rw [charListLe_iff_not_lex]
  constructor
  · intro h
    exact not_lt.mp fun hlt => h hlt
  · intro h
    exact not_lt.mpr h

/-- The discovery order is total. -/
instance : IsTotal String fun a b : String => nameLe a b = true :=
  ⟨fun a b => by
    rw [nameLe_iff, nameLe_iff]
    exact le_total a b⟩

/-- The discovery order is transitive. -/
instance : IsTrans String fun a b : String => nameLe a b = true :=
  ⟨fun a b c hab hbc => by
    rw [nameLe_iff] at hab hbc ⊢
    exact le_trans hab hbc⟩

/-- Discovery: `for migration_file in "$MIGRATIONS_DIR"/*.sql` — the `.sql`
entries of the directory listing, enumerated in lexicographic filename
order. -/
def discoverMigrations (files : List String) : List String :=
  List.insertionSort (fun a b => nameLe a b = true) (files.filter matchesSqlGlob)

/-- An entry of the spec-level `AppliedReport`: during the loop each discovered
migration is either applied (`psql` ran it) or skipped (already recorded). -/
inductive MigrationEvent where
  | applied (name : String)
  | skipped (name : String)
deriving DecidableEq, Repr

/-- The migration name an event is about. -/
def MigrationEvent.name : MigrationEvent → String
  | .applied n => n
  | .skipped n => n

/-- Names of `applied` events, in order. -/
def appliedOf (events : List MigrationEvent) : List String :=
  events.filterMap fun e =>
    match e with
    | .applied n => some n
    | .skipped _ => none

/-- Names of `skipped` events, in order. -/
def skippedOf (events : List MigrationEvent) : List String :=
  events.filterMap fun e =>
    match e with
    | .skipped n => some n
    | .applied _ => none

/-- State reached by a run of the migration loop: the database, the status
file, and the per-migration events in processing order. -/
structure AppliedReport (δ : Type) where
  db : δ
  store : Option StatusFile
  events : List MigrationEvent
deriving DecidableEq

/-- The `appliedNames` component of the spec's `AppliedReport`. -/
def AppliedReport.appliedNames {δ : Type} (r : AppliedReport δ) : List String :=
  appliedOf r.events

/-- The `skippedNames` component of the spec's `AppliedReport`. -/
def AppliedReport.skippedNames {δ : Type} (r : AppliedReport δ) : List String :=
  skippedOf r.events

/-- Outcome of the entrypoint migration loop: either the loop finishes (`ok`)
or some migration's `psql` invocation fails and the script does `exit 1`
(`failed`, carrying the failing name and the state at that moment). -/
inductive RunResult (δ : Type) where
  | ok (report : AppliedReport δ)
  | failed (name : String) (report : AppliedReport δ)
deriving DecidableEq

/-- The state carried by either outcome. -/
def RunResult.report {δ : Type} : RunResult δ → AppliedReport δ
  | .ok r => r
  | .failed _ r => r

/-- Process exit code of the migration phase: `0` when the loop completes,
`1` on the `exit 1` taken when a migration fails. -/
def RunResult.exitCode {δ : Type} : RunResult δ → Nat
  | .ok _ => 0
  | .failed _ _ => 1

/-- Prepend a processing event to the report of a run outcome. -/
def RunResult.consEvent {δ : Type} (e : MigrationEvent) : RunResult δ → RunResult δ
  | .ok r => .ok ⟨r.db, r.store, e :: r.events⟩
  | .failed n r => .failed n ⟨r.db, r.store, e :: r.events⟩

/-- The spec's `applyOne`: run the migration body (`psql -f`), and only on
success write the applied record (`mark_migration_applied`).  `none` models
the failing invocation, after which no record is written. -/
def applyOne {δ : Type} (exec : String → δ → Option δ) (ts : String → String)
    (n : String) (db : δ) (store : Option StatusFile) : Option (δ × StatusFile) :=
  match exec n db with
  | some db' => some (db', mark_migration_applied store n (ts n))
  | none => none

/-- The entrypoint migration loop over the discovered names, in order: skip a
name recorded applied, otherwise run it via `applyOne`; on failure stop at
once with `exit 1` (no record written, later names not attempted). -/
def migrationLoop {δ : Type} (exec : String → δ → Option δ) (ts : String → String) :
    List String → δ → Option StatusFile → RunResult δ
  | [], db, store => .ok ⟨db, store, []⟩
  | n :: rest, db, store =>
    if is_migration_applied store n then
      (migrationLoop exec ts rest db store).consEvent (.skipped n)
    else
      match applyOne exec ts n db store with
      | some (db', entries) =>
        (migrationLoop exec ts rest db' (some entries)).consEvent (.applied n)
      | none => .failed n ⟨db, store, []⟩

/-- The spec's `applyPending`: if the migrations directory exists, run the
loop over the discovered `.sql` files in lexicographic order, else do
nothing (`No migrations directory found, skipping migrations`). -/
def applyPending {δ : Type} (exec : String → δ → Option δ) (ts : String → String)
    (dirExists : Bool) (files : List String) (db : δ) (store : Option StatusFile) :
    RunResult δ :=
  if dirExists then
    migrationLoop exec ts (discoverMigrations files) db store
  else
    .ok ⟨db, store, []⟩

/-- The single migration file hard-coded in the TypeScript runner
(`path.join(process.cwd(), 'migrations', '003-add-unread-message-tracking.sql')`). -/
def migrationFileName : String := "003-add-unread-message-tracking.sql"

/-- A client session against the target database: the committed state plus, if
a transaction is open, the in-transaction view of the state. -/
structure Session (δ : Type) where
  committedDb : δ
  txn : Option δ

/-- The `BEGIN` query: open a transaction whose view starts at the committed
state. -/
def sessionBegin {δ : Type} (s : Session δ) : Session δ :=
  { s with txn := some s.committedDb }

/-- Run a statement. Inside a transaction it only changes the transaction
view; outside, it commits directly. `none` models a query error. -/
def sessionQuery {δ : Type} (f : δ → Option δ) (s : Session δ) : Option (Session δ) :=
  match s.txn with
  | some v => (f v).map fun v' => { s with txn := some v' }
  | none => (f s.committedDb).map fun d => ⟨d, none⟩

/-- The `COMMIT` query: make the transaction view the committed state. -/
def sessionCommit {δ : Type} (s : Session δ) : Session δ :=
  match s.txn with
  | some v => ⟨v, none⟩
  | none => s

/-- The `ROLLBACK` query: discard the transaction view; the committed state is
untouched. -/
def sessionRollback {δ : Type} (s : Session δ) : Session δ :=
  ⟨s.committedDb, none⟩

/-- Observable outcome of one invocation of the TypeScript runner: the process
exit code, the committed database state afterwards, and whether the migration
body was submitted to the database. -/
structure RunnerResult (δ : Type) where
  exitCode : Nat
  db : δ
  bodyExecuted : Bool
deriving DecidableEq, Repr

/-- The TypeScript runner `runUnreadMessageMigration`: connect to the pool
(a rejected connection is caught by the caller's `.catch`, which does
`process.exit(1)`); `process.exit(1)` if the hard-coded migration file does
not exist; otherwise `BEGIN`, run the file's SQL, `COMMIT`, and `exit(0)` —
or, if the SQL fails, `ROLLBACK` and `exit(1)`.  The verification `SELECT`s
after the `COMMIT` are reads against system catalogs and are not modelled.
The runner consults no record store of any kind. -/
def runUnreadMessageMigration {δ : Type} (connectOk fileExists : Bool)
    (body : δ → Option δ) (db : δ) : RunnerResult δ :=
  if connectOk = false then ⟨1, db, false⟩
  else if fileExists = false then ⟨1, db, false⟩
  else
    let s0 := sessionBegin ⟨db, none⟩
    match sessionQuery body s0 with
    | some s1 => ⟨0, (sessionCommit s1).committedDb, true⟩
    | none => ⟨1, (sessionRollback s0).committedDb, true⟩

/-- The TypeScript runner, run in a world that also carries the entrypoint's
record store: the script contains no statement that touches the status file,
so the store component passes through untouched. -/
def runUnreadMessageMigrationW {δ : Type} (connectOk fileExists : Bool)
    (body : δ → Option δ) (w : δ × Option StatusFile) :
    RunnerResult δ × Option StatusFile :=
  (runUnreadMessageMigration connectOk fileExists body w.1, w.2)

/-- The `sleep 2` between reachability probes, in seconds. -/
def retrySleepSeconds : Nat := 2

/-- Time (in seconds after the first probe) at which probe `j` runs: the loop
sleeps a fixed `retrySleepSeconds` between consecutive probes. -/
def attemptTime (j : Nat) : Nat := retrySleepSeconds * j

/-- The entrypoint's `until pg_isready … do sleep 2; done` loop, given the
outcome of each successive probe and a fuel bound on how many probes we
observe: `some k` means the loop exited after probe `k` succeeded, `none`
means every observed probe failed and the loop is still running. -/
def waitLoopFuel (reachable : Nat → Bool) : Nat → Nat → Option Nat
  | 0, _ => none
  | fuel + 1, k => if reachable k then some k else waitLoopFuel reachable fuel (k + 1)

/-- The entrypoint up to the end of the migration phase: first the
reachability wait loop, and only once it has terminated the migration loop.
`none` means the script is still blocked waiting for the database, having
touched nothing. -/
def entrypointRun {δ : Type} (reachable : Nat → Bool) (fuel : Nat)
    (exec : String → δ → Option δ) (ts : String → String) (dirExists : Bool)
    (files : List String) (db : δ) (store : Option StatusFile) :
    Option (RunResult δ) :=
  match waitLoopFuel reachable fuel 0 with
  | none => none
  | some _ => some (applyPending exec ts dirExists files db store)

/-! ## Concrete fixtures used by the witnesses -/

/-- Executor on a counter database for which every migration body succeeds. -/
def wExecOk : String → Nat → Option Nat := fun _ d => some (d + 1)

/-- Executor for which exactly the body of `002-b.sql` fails. -/
def wExecFail2 : String → Nat → Option Nat :=
  fun n d => if n = "002-b.sql" then none else some (d + 1)

/-- A fixed timestamp source. -/
def wTs : String → String := fun _ => "2024-01-01 00:00:00"

/-- A status file recording `001-a.sql` as applied. -/
def wStore1 : Option StatusFile := some [⟨"001-a.sql", "applied", "T0"⟩]

/-! ## Record-store lemmas -/

theorem any_congr {α : Type} {p q : α → Bool} :
    ∀ {l : List α}, (∀ a ∈ l, p a = q a) → l.any p = l.any q
  | [], _ => rfl
  | a :: l, h => by
    simp only [List.any_cons]
    rw [h a (List.mem_cons_self a l), any_congr fun b hb => h b (List.mem_cons_of_mem a hb)]

/-- The `applied` check, read off the status-file content (an absent file has
no lines). -/
theorem is_applied_eq_getD (store : Option StatusFile) (m : String) :
    is_migration_applied store m =
      (store.getD []).any fun e => decide (e.name = m) && decide (e.status = "applied") := by
  cases store <;> rfl

theorem is_applied_mark_self (store : Option StatusFile) (n ts : String) :
    is_migration_applied (some (mark_migration_applied store n ts)) n = true := by
  rw [is_applied_eq_getD]
  simp only [Option.getD_some]
  unfold mark_migration_applied
  by_cases h : ((store.getD []).any fun e => decide (e.name = n)) = true
  · rw [if_pos h, List.any_map]
    rw [List.any_eq_true] at h ⊢
    obtain ⟨e, he, hname⟩ := h
    rw [decide_eq_true_eq] at hname
    exact ⟨e, he, by simp [Function.comp, hname]⟩
  · rw [if_neg h, List.any_append]
    simp

theorem is_applied_mark_of_ne (store : Option StatusFile) {m n : String} (ts : String)
    (hne : m ≠ n) :
    is_migration_applied (some (mark_migration_applied store n ts)) m =
      is_migration_applied store m := by
  rw [is_applied_eq_getD, is_applied_eq_getD store]
  simp only [Option.getD_some]
  unfold mark_migration_applied
  by_cases h : ((store.getD []).any fun e => decide (e.name = n)) = true
  · rw [if_pos h, List.any_map]
    apply any_congr
    intro e he
    by_cases h0 : e.name = n
    · have hnm : ¬ n = m := fun hc => hne hc.symm
      simp [Function.comp, h0, hnm]
    · simp [Function.comp, h0]
  · rw [if_neg h, List.any_append]
    have hnm : ¬ n = m := fun hc => hne hc.symm
    simp [hnm]

theorem is_applied_mark (store : Option StatusFile) (m n ts : String) :
    is_migration_applied (some (mark_migration_applied store n ts)) m =
      (decide (m = n) || is_migration_applied store m) := by
  by_cases h : m = n
  · subst h
    simp [is_applied_mark_self]
  · simp [h, is_applied_mark_of_ne store ts h]

theorem is_applied_mark_mono (store : Option StatusFile) {m : String} (n ts : String)
    (h : is_migration_applied store m = true) :
    is_migration_applied (some (mark_migration_applied store n ts)) m = true := by
  rw [is_applied_mark, h, Bool.or_true]

/-! ## Loop unfolding lemmas -/

theorem appliedOf_nil : appliedOf [] = [] := rfl

theorem appliedOf_cons_applied (n : String) (evs : List MigrationEvent) :
    appliedOf (.applied n :: evs) = n :: appliedOf evs := rfl

theorem appliedOf_cons_skipped (n : String) (evs : List MigrationEvent) :
    appliedOf (.skipped n :: evs) = appliedOf evs := rfl

theorem skippedOf_nil : skippedOf [] = [] := rfl

theorem skippedOf_cons_applied (n : String) (evs : List MigrationEvent) :
    skippedOf (.applied n :: evs) = skippedOf evs := rfl

theorem skippedOf_cons_skipped (n : String) (evs : List MigrationEvent) :
    skippedOf (.skipped n :: evs) = n :: skippedOf evs := rfl

theorem applyOne_eq_none {δ : Type} {exec : String → δ → Option δ} (ts : String → String)
    {n : String} {db : δ} (store : Option StatusFile) (h : exec n db = none) :
    applyOne exec ts n db store = none := by
  simp [applyOne, h]

theorem applyOne_eq_some {δ : Type} {exec : String → δ → Option δ} (ts : String → String)
    {n : String} {db db' : δ} (store : Option StatusFile) (h : exec n db = some db') :
    applyOne exec ts n db store = some (db', mark_migration_applied store n (ts n)) := by
  simp [applyOne, h]

theorem migrationLoop_nil {δ : Type} (exec : String → δ → Option δ) (ts : String → String)
    (db : δ) (store : Option StatusFile) :
    migrationLoop exec ts [] db store = .ok ⟨db, store, []⟩ := rfl

theorem migrationLoop_cons_skip {δ : Type} (exec : String → δ → Option δ) (ts : String → String)
    {n : String} (rest : List String) (db : δ) {store : Option StatusFile}
    (hap : is_migration_applied store n = true) :
    migrationLoop exec ts (n :: rest) db store =
      (migrationLoop exec ts rest db store).consEvent (.skipped n) := by
  rw [migrationLoop, if_pos hap]

theorem migrationLoop_cons_apply {δ : Type} (exec : String → δ → Option δ) (ts : String → String)
    {n : String} (rest : List String) {db db' : δ} {store : Option StatusFile}
    (hap : is_migration_applied store n = false) (hex : exec n db = some db') :
    migrationLoop exec ts (n :: rest) db store =
      (migrationLoop exec ts rest db' (some (mark_migration_applied store n (ts n)))).consEvent
        (.applied n) := by
  rw [migrationLoop, if_neg (by simp [hap]), applyOne_eq_some ts store hex]

theorem migrationLoop_cons_fail {δ : Type} (exec : String → δ → Option δ) (ts : String → String)
    {n : String} (rest : List String) {db : δ} {store : Option StatusFile}
    (hap : is_migration_applied store n = false) (hex : exec n db = none) :
    migrationLoop exec ts (n :: rest) db store = .failed n ⟨db, store, []⟩ := by
  rw [migrationLoop, if_neg (by simp [hap]), applyOne_eq_none ts store hex]

/-! ## Run lemmas -/

theorem report_consEvent {δ : Type} (e : MigrationEvent) (res : RunResult δ) :
    (res.consEvent e).report =
      ⟨res.report.db, res.report.store, e :: res.report.events⟩ := by
  cases res <;> rfl

theorem consEvent_eq_ok {δ : Type} {e : MigrationEvent} {res : RunResult δ}
    {r : AppliedReport δ} (h : res.consEvent e = .ok r) :
    ∃ r', res = .ok r' ∧ r = ⟨r'.db, r'.store, e :: r'.events⟩ := by
  cases res with
  | ok r' =>
    refine ⟨r', rfl, ?_⟩
    injection h with h1
    exact h1.symm
  | failed nf r' => exact RunResult.noConfusion h

theorem consEvent_eq_failed {δ : Type} {e : MigrationEvent} {res : RunResult δ}
    {nf : String} {r : AppliedReport δ} (h : res.consEvent e = .failed nf r) :
    ∃ r', res = .failed nf r' ∧ r = ⟨r'.db, r'.store, e :: r'.events⟩ := by
  cases res with
  | ok r' => exact RunResult.noConfusion h
  | failed nf' r' =>
    injection h with h1 h2
    exact ⟨r', by rw [h1], h2.symm⟩

theorem migrationLoop_ok_events {δ : Type} (exec : String → δ → Option δ)
    (ts : String → String) :
    ∀ {names : List String} {db : δ} {store : Option StatusFile} {r : AppliedReport δ},
      migrationLoop exec ts names db store = .ok r →
      r.events.map MigrationEvent.name = names := by
  intro names
  induction names with
  | nil =>
    intro db store r h
    rw [migrationLoop_nil] at h
    injection h with h1
    rw [← h1]
    rfl
  | cons n rest ih =>
    intro db store r h
    by_cases hap : is_migration_applied store n = true
    · rw [migrationLoop_cons_skip exec ts rest db hap] at h
      obtain ⟨r', hr', hreq⟩ := consEvent_eq_ok h
      subst hreq
      simp [MigrationEvent.name, ih hr']
    · simp only [Bool.not_eq_true] at hap
      cases hex : exec n db with
      | none =>
        rw [migrationLoop_cons_fail exec ts rest hap hex] at h
        exact RunResult.noConfusion h
      | some db' =>
        rw [migrationLoop_cons_apply exec ts rest hap hex] at h
        obtain ⟨r', hr', hreq⟩ := consEvent_eq_ok h
        subst hreq
        simp [MigrationEvent.name, ih hr']

theorem migrationLoop_ok_is_applied {δ : Type} (exec : String → δ → Option δ)
    (ts : String → String) :
    ∀ {names : List String} {db : δ} {store : Option StatusFile} {r : AppliedReport δ},
      migrationLoop exec ts names db store = .ok r →
      ∀ m, is_migration_applied r.store m =
        (is_migration_applied store m || decide (m ∈ r.appliedNames)) := by
  intro names
  induction names with
  | nil =>
    intro db store r h m
    rw [migrationLoop_nil] at h
    injection h with h1
    rw [← h1]
    simp [AppliedReport.appliedNames, appliedOf]
  | cons n rest ih =>
    intro db store r h m
    by_cases hap : is_migration_applied store n = true
    · rw [migrationLoop_cons_skip exec ts rest db hap] at h
      obtain ⟨r', hr', hreq⟩ := consEvent_eq_ok h
      subst hreq
      have := ih hr' m
      simpa [AppliedReport.appliedNames, skippedOf_cons_skipped, appliedOf_cons_skipped] using this
    · simp only [Bool.not_eq_true] at hap
      cases hex : exec n db with
      | none =>
        rw [migrationLoop_cons_fail exec ts rest hap hex] at h
        exact RunResult.noConfusion h
      | some db' =>
        rw [migrationLoop_cons_apply exec ts rest hap hex] at h
        obtain ⟨r', hr', hreq⟩ := consEvent_eq_ok h
        subst hreq
        have hih := ih hr' m
        rw [is_applied_mark] at hih
        rw [Bool.eq_iff_iff]
        rw [Bool.eq_iff_iff] at hih
        simp only [AppliedReport.appliedNames, appliedOf_cons_applied, Bool.or_eq_true,
          decide_eq_true_eq, List.mem_cons] at hih ⊢
        tauto

theorem migrationLoop_store_mono {δ : Type} (exec : String → δ → Option δ)
    (ts : String → String) :
    ∀ {names : List String} {db : δ} {store : Option StatusFile} {m : String},
      is_migration_applied store m = true →
      is_migration_applied (migrationLoop exec ts names db store).report.store m = true := by
  intro names
  induction names with
  | nil =>
    intro db store m h
    rw [migrationLoop_nil]
    exact h
  | cons n rest ih =>
    intro db store m h
    by_cases hap : is_migration_applied store n = true
    · rw [migrationLoop_cons_skip exec ts rest db hap, report_consEvent]
      exact ih h
    · simp only [Bool.not_eq_true] at hap
      cases hex : exec n db with
      | none =>
        rw [migrationLoop_cons_fail exec ts rest hap hex]
        exact h
      | some db' =>
        rw [migrationLoop_cons_apply exec ts rest hap hex, report_consEvent]
        exact ih (is_applied_mark_mono store n (ts n) h)

theorem migrationLoop_ok_all_applied {δ : Type} (exec : String → δ → Option δ)
    (ts : String → String) :
    ∀ {names : List String} {db : δ} {store : Option StatusFile} {r : AppliedReport δ},
      migrationLoop exec ts names db store = .ok r →
      ∀ n ∈ names, is_migration_applied r.store n = true := by
  intro names
  induction names with
  | nil =>
    intro db store r h n hn
    exact absurd hn (List.not_mem_nil n)
  | cons n rest ih =>
    intro db store r h m hm
    by_cases hap : is_migration_applied store n = true
    · rw [migrationLoop_cons_skip exec ts rest db hap] at h
      obtain ⟨r', hr', hreq⟩ := consEvent_eq_ok h
      subst hreq
      rcases List.mem_cons.mp hm with hm | hm
      · subst hm
        have := @migrationLoop_store_mono δ exec ts rest db store m hap
        rwa [hr'] at this
      · exact ih hr' m hm
    · simp only [Bool.not_eq_true] at hap
      cases hex : exec n db with
      | none =>
        rw [migrationLoop_cons_fail exec ts rest hap hex] at h
        exact RunResult.noConfusion h
      | some db' =>
        rw [migrationLoop_cons_apply exec ts rest hap hex] at h
        obtain ⟨r', hr', hreq⟩ := consEvent_eq_ok h
        subst hreq
        rcases List.mem_cons.mp hm with hm | hm
        · subst hm
          have := @migrationLoop_store_mono δ exec ts rest db'
            (some (mark_migration_applied store m (ts m))) m
            (is_applied_mark_self store m (ts m))
          rwa [hr'] at this
        · exact ih hr' m hm

theorem migrationLoop_skip_all {δ : Type} (exec : String → δ → Option δ)
    (ts : String → String) :
    ∀ {names : List String} {db : δ} {store : Option StatusFile},
      (∀ n ∈ names, is_migration_applied store n = true) →
      migrationLoop exec ts names db store =
        .ok ⟨db, store, names.map .skipped⟩ := by
  intro names
  induction names with
  | nil =>
    intro db store h
    rw [migrationLoop_nil]
    rfl
  | cons n rest ih =>
    intro db store h
    rw [migrationLoop_cons_skip exec ts rest db (h n (List.mem_cons_self n rest)),
      ih fun m hm => h m (List.mem_cons_of_mem n hm)]
    rfl

theorem migrationLoop_ok_of_total {δ : Type} {exec : String → δ → Option δ}
    (ts : String → String) (htotal : ∀ n d, (exec n d).isSome = true) :
    ∀ (names : List String) (db : δ) (store : Option StatusFile),
      ∃ r, migrationLoop exec ts names db store = .ok r := by
  intro names
  induction names with
  | nil =>
    intro db store
    exact ⟨⟨db, store, []⟩, migrationLoop_nil exec ts db store⟩
  | cons n rest ih =>
    intro db store
    by_cases hap : is_migration_applied store n = true
    · obtain ⟨r', hr'⟩ := ih db store
      refine ⟨⟨r'.db, r'.store, .skipped n :: r'.events⟩, ?_⟩
      rw [migrationLoop_cons_skip exec ts rest db hap, hr']
      rfl
    · simp only [Bool.not_eq_true] at hap
      cases hex : exec n db with
      | none =>
        have := htotal n db
        rw [hex] at this
        exact absurd this (by simp)
      | some db' =>
        obtain ⟨r', hr'⟩ := ih db' (some (mark_migration_applied store n (ts n)))
        refine ⟨⟨r'.db, r'.store, .applied n :: r'.events⟩, ?_⟩
        rw [migrationLoop_cons_apply exec ts rest hap hex, hr']
        rfl

theorem migrationLoop_failed_elim {δ : Type} (exec : String → δ → Option δ)
    (ts : String → String) :
    ∀ {names : List String} {db : δ} {store : Option StatusFile} {nf : String}
      {r : AppliedReport δ},
      migrationLoop exec ts names db store = .failed nf r →
      ∃ pre post, names = pre ++ nf :: post ∧
        migrationLoop exec ts pre db store = .ok r ∧
        is_migration_applied r.store nf = false ∧
        exec nf r.db = none := by
  intro names
  induction names with
  | nil =>
    intro db store nf r h
    rw [migrationLoop_nil] at h
    exact RunResult.noConfusion h
  | cons n rest ih =>
    intro db store nf r h
    by_cases hap : is_migration_applied store n = true
    · rw [migrationLoop_cons_skip exec ts rest db hap] at h
      obtain ⟨r', hr', hreq⟩ := consEvent_eq_failed h
      obtain ⟨pre', post', hsplit, hok, hnap, hex⟩ := ih hr'
      refine ⟨n :: pre', post', by rw [hsplit]; rfl, ?_, ?_, ?_⟩
      · rw [migrationLoop_cons_skip exec ts pre' db hap, hok, hreq]
        rfl
      · rw [hreq]
        exact hnap
      · rw [hreq]
        exact hex
    · simp only [Bool.not_eq_true] at hap
      cases hex : exec n db with
      | none =>
        rw [migrationLoop_cons_fail exec ts rest hap hex] at h
        injection h with h1 h2
        subst h1
        refine ⟨[], rest, rfl, ?_, ?_, ?_⟩
        · rw [migrationLoop_nil, h2]
        · rw [← h2]
          exact hap
        · rw [← h2]
          exact hex
      | some db' =>
        rw [migrationLoop_cons_apply exec ts rest hap hex] at h
        obtain ⟨r', hr', hreq⟩ := consEvent_eq_failed h
        obtain ⟨pre', post', hsplit, hok, hnap, hexf⟩ := ih hr'
        refine ⟨n :: pre', post', by rw [hsplit]; rfl, ?_, ?_, ?_⟩
        · rw [migrationLoop_cons_apply exec ts pre' hap hex, hok, hreq]
          rfl
        · rw [hreq]
          exact hnap
        · rw [hreq]
          exact hexf

theorem migrationLoop_ok_filter {δ : Type} (exec : String → δ → Option δ)
    (ts : String → String) :
    ∀ {names : List String} {db : δ} {store : Option StatusFile} {r : AppliedReport δ},
      names.Nodup →
      migrationLoop exec ts names db store = .ok r →
      r.appliedNames = names.filter (fun n => !is_migration_applied store n) ∧
      r.skippedNames = names.filter (fun n => is_migration_applied store n) := by
  intro names
  induction names with
  | nil =>
    intro db store r hnd h
    rw [migrationLoop_nil] at h
    injection h with h1
    rw [← h1]
    constructor <;> rfl
  | cons n rest ih =>
    intro db store r hnd h
    have hnmem : n ∉ rest := (List.nodup_cons.mp hnd).1
    have hndrest : rest.Nodup := (List.nodup_cons.mp hnd).2
    by_cases hap : is_migration_applied store n = true
    · rw [migrationLoop_cons_skip exec ts rest db hap] at h
      obtain ⟨r', hr', hreq⟩ := consEvent_eq_ok h
      subst hreq
      obtain ⟨hihA, hihS⟩ := ih hndrest hr'
      constructor
      · show appliedOf (.skipped n :: r'.events) = _
        rw [appliedOf_cons_skipped, List.filter_cons, if_neg (by simp [hap])]
        exact hihA
      · show skippedOf (.skipped n :: r'.events) = _
        rw [skippedOf_cons_skipped, List.filter_cons, if_pos hap]
        rw [show skippedOf r'.events = r'.skippedNames from rfl, hihS]
    · simp only [Bool.not_eq_true] at hap
      cases hex : exec n db with
      | none =>
        rw [migrationLoop_cons_fail exec ts rest hap hex] at h
        exact RunResult.noConfusion h
      | some db' =>
        rw [migrationLoop_cons_apply exec ts rest hap hex] at h
        obtain ⟨r', hr', hreq⟩ := consEvent_eq_ok h
        subst hreq
        obtain ⟨hihA, hihS⟩ := ih hndrest hr'
        have hsame : ∀ m ∈ rest,
            is_migration_applied (some (mark_migration_applied store n (ts n))) m =
              is_migration_applied store m := by
          intro m hm
          exact is_applied_mark_of_ne store (ts n) fun hc => hnmem (hc ▸ hm)
        constructor
        · show appliedOf (.applied n :: r'.events) = _
          rw [appliedOf_cons_applied, List.filter_cons, if_pos (by simp [hap])]
          rw [show appliedOf r'.events = r'.appliedNames from rfl, hihA]
          congr 1
          exact List.filter_congr fun m hm => by rw [hsame m hm]
        · show skippedOf (.applied n :: r'.events) = _
          rw [skippedOf_cons_applied, List.filter_cons, if_neg (by simp [hap])]
          rw [show skippedOf r'.events = r'.skippedNames from rfl, hihS]
          exact List.filter_congr fun m hm => hsame m hm

theorem hasName_eq_false {store : Option StatusFile} {n : String}
    (hall : ∀ e ∈ store.getD [], e.status = "applied")
    (hnap : is_migration_applied store n = false) :
    ((store.getD []).any fun e => decide (e.name = n)) = false := by
  by_contra hc
  rw [Bool.not_eq_false, List.any_eq_true] at hc
  obtain ⟨e, he, hname⟩ := hc
  rw [decide_eq_true_eq] at hname
  have : is_migration_applied store n = true := by
    rw [is_applied_eq_getD, List.any_eq_true]
    exact ⟨e, he, by simp [hname, hall e he]⟩
  rw [hnap] at this
  exact Bool.noConfusion this

theorem mark_eq_append {store : Option StatusFile} {n : String} (ts : String)
    (hall : ∀ e ∈ store.getD [], e.status = "applied")
    (hnap : is_migration_applied store n = false) :
    mark_migration_applied store n ts = store.getD [] ++ [⟨n, "applied", ts⟩] := by
  rw [mark_migration_applied]
  rw [if_neg]
  rw [hasName_eq_false hall hnap]
  exact Bool.false_ne_true

theorem migrationLoop_append_only {δ : Type} (exec : String → δ → Option δ)
    (ts : String → String) :
    ∀ {names : List String} {db : δ} {store : Option StatusFile},
      (∀ e ∈ store.getD [], e.status = "applied") →
      ∃ new : StatusFile,
        (migrationLoop exec ts names db store).report.store.getD [] =
          store.getD [] ++ new ∧
        (∀ e ∈ new, e.status = "applied") ∧
        new.map MigrationRecord.name =
          appliedOf (migrationLoop exec ts names db store).report.events ∧
        (∀ e ∈ new, ((store.getD []).any fun e2 => decide (e2.name = e.name)) = false) ∧
        (new.map MigrationRecord.name).Nodup := by
  intro names
  induction names with
  | nil =>
    intro db store hall
    refine ⟨[], by simp [migrationLoop_nil, RunResult.report], by simp, ?_, by simp, by simp⟩
    rw [migrationLoop_nil]
    rfl
  | cons n rest ih =>
    intro db store hall
    by_cases hap : is_migration_applied store n = true
    · rw [migrationLoop_cons_skip exec ts rest db hap, report_consEvent]
      obtain ⟨new, h1, h2, h3, h4, h5⟩ := @ih db store hall
      exact ⟨new, h1, h2, by rw [appliedOf_cons_skipped]; exact h3, h4, h5⟩
    · simp only [Bool.not_eq_true] at hap
      cases hex : exec n db with
      | none =>
        rw [migrationLoop_cons_fail exec ts rest hap hex]
        exact ⟨[], by simp [RunResult.report], by simp,
          by simp [RunResult.report, appliedOf], by simp, by simp⟩
      | some db' =>
        rw [migrationLoop_cons_apply exec ts rest hap hex, report_consEvent]
        have hmark := mark_eq_append (ts n) hall hap
        have hall' : ∀ e ∈ (some (mark_migration_applied store n (ts n)) :
            Option StatusFile).getD [], e.status = "applied" := by
          intro e he
          rw [Option.getD_some, hmark, List.mem_append] at he
          rcases he with he | he
          · exact hall e he
          · simp only [List.mem_singleton] at he
            rw [he]
        obtain ⟨new, h1, h2, h3, h4, h5⟩ :=
          @ih db' (some (mark_migration_applied store n (ts n))) hall'
        rw [Option.getD_some, hmark] at h4
        have hnrec := hasName_eq_false hall hap
        refine ⟨⟨n, "applied", ts n⟩ :: new, ?_, ?_, ?_, ?_, ?_⟩
        · show (migrationLoop exec ts rest db'
            (some (mark_migration_applied store n (ts n)))).report.store.getD [] = _
          rw [h1, Option.getD_some, hmark, List.append_assoc, List.singleton_append]
        · intro e he
          rcases List.mem_cons.mp he with he | he
          · rw [he]
          · exact h2 e he
        · rw [List.map_cons, appliedOf_cons_applied, h3]
        · intro e he
          rcases List.mem_cons.mp he with he | he
          · rw [he]
            exact hnrec
          · have := h4 e he
            rw [List.any_append] at this
            exact (Bool.or_eq_false_iff.mp this).1
        · rw [List.map_cons]
          rw [List.nodup_cons]
          refine ⟨?_, h5⟩
          intro hc
          rw [List.mem_map] at hc
          obtain ⟨e, he, hname⟩ := hc
          have := h4 e he
          rw [List.any_append] at this
          have hsingle := (Bool.or_eq_false_iff.mp this).2
          simp only [List.any_cons, List.any_nil, Bool.or_false] at hsingle
          rw [decide_eq_false_iff_not] at hsingle
          exact hsingle hname.symm

/-! ## Wait-loop and runner lemmas -/

theorem waitLoopFuel_some {reachable : Nat → Bool} :
    ∀ {fuel k m : Nat}, waitLoopFuel reachable fuel k = some m →
      reachable m = true ∧ k ≤ m ∧ ∀ j, k ≤ j → j < m → reachable j = false := by
  intro fuel
  induction fuel with
  | zero =>
    intro k m h
    exact Option.noConfusion h
  | succ fuel ih =>
    intro k m h
    rw [waitLoopFuel] at h
    by_cases hr : reachable k = true
    · rw [if_pos hr] at h
      injection h with h1
      subst h1
      exact ⟨hr, le_refl _, fun j hkj hjk => absurd (lt_of_le_of_lt hkj hjk) (lt_irrefl _)⟩
    · simp only [Bool.not_eq_true] at hr
      rw [if_neg (by simp [hr])] at h
      obtain ⟨h1, h2, h3⟩ := ih h
      refine ⟨h1, le_trans (Nat.le_succ k) h2, ?_⟩
      intro j hkj hjm
      by_cases hj : j = k
      · subst hj
        exact hr
      · exact h3 j (Nat.succ_le_of_lt (Nat.lt_of_le_of_ne hkj fun hc => hj hc.symm)) hjm

theorem waitLoopFuel_none {reachable : Nat → Bool}
    (hnever : ∀ j, reachable j = false) :
    ∀ (fuel k : Nat), waitLoopFuel reachable fuel k = none := by
  intro fuel
  induction fuel with
  | zero =>
    intro k
    rfl
  | succ fuel ih =>
    intro k
    rw [waitLoopFuel, if_neg (by simp [hnever k])]
    exact ih (k + 1)

theorem runner_connect_fail {δ : Type} (fileExists : Bool) (body : δ → Option δ) (db : δ) :
    runUnreadMessageMigration false fileExists body db = ⟨1, db, false⟩ := by
  rw [runUnreadMessageMigration, if_pos rfl]

theorem runner_file_missing {δ : Type} (body : δ → Option δ) (db : δ) :
    runUnreadMessageMigration true false body db = ⟨1, db, false⟩ := by
  rw [runUnreadMessageMigration, if_neg (by simp), if_pos rfl]

theorem runner_commit {δ : Type} {body : δ → Option δ} {db d' : δ} (h : body db = some d') :
    runUnreadMessageMigration true true body db = ⟨0, d', true⟩ := by
  rw [runUnreadMessageMigration, if_neg (by simp), if_neg (by simp)]
  simp [sessionBegin, sessionQuery, sessionCommit, h]

theorem runner_rollback {δ : Type} {body : δ → Option δ} {db : δ} (h : body db = none) :
    runUnreadMessageMigration true true body db = ⟨1, db, true⟩ := by
  rw [runUnreadMessageMigration, if_neg (by simp), if_neg (by simp)]
  simp [sessionBegin, sessionQuery, sessionRollback, h]

/-! ## Discovery and event lemmas -/

theorem discoverMigrations_sorted_le (files : List String) :
    (discoverMigrations files).Sorted (· ≤ ·) := by
  have h := List.sorted_insertionSort (fun a b => nameLe a b = true)
    (files.filter matchesSqlGlob)
  exact h.imp fun hab => (nameLe_iff _ _).mp hab

theorem discoverMigrations_perm (files : List String) :
    (discoverMigrations files).Perm (files.filter matchesSqlGlob) :=
  List.perm_insertionSort _ _

theorem discoverMigrations_nodup {files : List String} (hnd : files.Nodup) :
    (discoverMigrations files).Nodup :=
  (List.Perm.nodup_iff (discoverMigrations_perm files)).mpr
    (List.Nodup.filter matchesSqlGlob hnd)

theorem discoverMigrations_sorted_lt {files : List String} (hnd : files.Nodup) :
    (discoverMigrations files).Sorted (· < ·) :=
  List.Sorted.lt_of_le (discoverMigrations_sorted_le files) (discoverMigrations_nodup hnd)

theorem mem_appliedOf_mem_names {m : String} :
    ∀ {evs : List MigrationEvent}, m ∈ appliedOf evs → m ∈ evs.map MigrationEvent.name := by
  intro evs
  induction evs with
  | nil =>
    intro h
    exact absurd h (List.not_mem_nil m)
  | cons e evs ih =>
    intro h
    cases e with
    | applied n =>
      rw [appliedOf_cons_applied] at h
      rcases List.mem_cons.mp h with h | h
      · rw [List.map_cons, h]
        exact List.mem_cons_self _ _
      · exact List.mem_cons_of_mem _ (ih h)
    | skipped n =>
      rw [appliedOf_cons_skipped] at h
      exact List.mem_cons_of_mem _ (ih h)

theorem appliedOf_map_skipped : ∀ names : List String,
    appliedOf (names.map .skipped) = [] := by
  intro names
  induction names with
  | nil => rfl
  | cons n rest ih =>
    rw [List.map_cons, appliedOf_cons_skipped, ih]

theorem skippedOf_map_skipped : ∀ names : List String,
    skippedOf (names.map .skipped) = names := by
  intro names
  induction names with
  | nil => rfl
  | cons n rest ih =>
    rw [List.map_cons, skippedOf_cons_skipped, ih]

/-! ## The claims -/

/-- C1: for every ordered set of discovered migration definitions and every
starting record store, a fully successful run applies exactly the migrations
whose names are not recorded as applied and skips exactly those recorded as
applied, in discovery order: `appliedNames` is the discovered sequence
filtered to the unrecorded names, `skippedNames` the recorded ones, and the
processing events cover the discovered names exactly, so the two lists
partition the discovered names. -/
theorem claim1_applyPending_partition {δ : Type} (exec : String → δ → Option δ)
    (ts : String → String) (names : List String) (db : δ) (store : Option StatusFile)
    (r : AppliedReport δ) (hnd : names.Nodup)
    (hrun : migrationLoop exec ts names db store = .ok r) :
    r.appliedNames = names.filter (fun n => !is_migration_applied store n) ∧
    r.skippedNames = names.filter (fun n => is_migration_applied store n) ∧
    r.events.map MigrationEvent.name = names := by
  obtain ⟨h1, h2⟩ := migrationLoop_ok_filter exec ts hnd hrun
  exact ⟨h1, h2, migrationLoop_ok_events exec ts hrun⟩

/-- Witness for C1: two discovered migrations, the first already recorded;
the run applies only the second and skips the first. -/
theorem claim1_applyPending_partition_witness :
    (["001-a.sql", "002-b.sql"] : List String).Nodup ∧
    migrationLoop wExecOk wTs ["001-a.sql", "002-b.sql"] 0 wStore1 =
      .ok ⟨1, some [⟨"001-a.sql", "applied", "T0"⟩,
        ⟨"002-b.sql", "applied", "2024-01-01 00:00:00"⟩],
        [.skipped "001-a.sql", .applied "002-b.sql"]⟩ ∧
    ((⟨1, some [⟨"001-a.sql", "applied", "T0"⟩,
        ⟨"002-b.sql", "applied", "2024-01-01 00:00:00"⟩],
        [.skipped "001-a.sql", .applied "002-b.sql"]⟩ : AppliedReport Nat).appliedNames =
      ["001-a.sql", "002-b.sql"].filter (fun n => !is_migration_applied wStore1 n) ∧
     (⟨1, some [⟨"001-a.sql", "applied", "T0"⟩,
        ⟨"002-b.sql", "applied", "2024-01-01 00:00:00"⟩],
        [.skipped "001-a.sql", .applied "002-b.sql"]⟩ : AppliedReport Nat).skippedNames =
      ["001-a.sql", "002-b.sql"].filter (fun n => is_migration_applied wStore1 n) ∧
     (⟨1, some [⟨"001-a.sql", "applied", "T0"⟩,
        ⟨"002-b.sql", "applied", "2024-01-01 00:00:00"⟩],
        [.skipped "001-a.sql", .applied "002-b.sql"]⟩ : AppliedReport Nat).events.map
        MigrationEvent.name = ["001-a.sql", "002-b.sql"]) :=
  ⟨by decide, by decide,
    claim1_applyPending_partition wExecOk wTs _ 0 wStore1 _ (by decide) (by decide)⟩

/-- C2: when a pending migration's body fails, the loop halts right there with
exit code 1: the failing name is not recorded, the processed prefix is exactly
the names before it (no later name attempted), every later name's record is
untouched, every migration applied earlier in the run stays recorded; a
subsequent invocation that fully succeeds (after the body is fixed) applies
exactly the still-unrecorded names in order, the failed one among them, and
re-applies none of the earlier successes. -/
theorem claim2_fail_fast {δ : Type} (exec exec2 : String → δ → Option δ)
    (ts ts2 : String → String) (names : List String) (db : δ)
    (store : Option StatusFile) (nf : String) (r r2 : AppliedReport δ)
    (hnd : names.Nodup)
    (hrun : migrationLoop exec ts names db store = .failed nf r)
    (hrun2 : migrationLoop exec2 ts2 names r.db r.store = .ok r2) :
    is_migration_applied r.store nf = false ∧
    (migrationLoop exec ts names db store).exitCode = 1 ∧
    names = r.events.map MigrationEvent.name ++ nf :: names.drop (r.events.length + 1) ∧
    (∀ m ∈ names.drop (r.events.length + 1),
        is_migration_applied r.store m = is_migration_applied store m) ∧
    (∀ m ∈ r.appliedNames, is_migration_applied r.store m = true) ∧
    r2.appliedNames = names.filter (fun m => !is_migration_applied r.store m) ∧
    nf ∈ r2.appliedNames ∧
    (∀ m ∈ r.appliedNames, m ∉ r2.appliedNames) := by
  obtain ⟨pre, post, hsplit, hok, hnap, hexf⟩ := migrationLoop_failed_elim exec ts hrun
  have hevents : r.events.map MigrationEvent.name = pre :=
    migrationLoop_ok_events exec ts hok
  have hlen : r.events.length = pre.length := by
    rw [← hevents, List.length_map]
  have hdrop : names.drop (r.events.length + 1) = post := by
    rw [hsplit, hlen, ← List.drop_drop, List.drop_left]
    rfl
  have hdisj : pre.Disjoint (nf :: post) := by
    rw [hsplit] at hnd
    exact (List.nodup_append.mp hnd).2.2
  have happre : ∀ m ∈ r.appliedNames, m ∈ pre := by
    intro m hm
    rw [← hevents]
    exact mem_appliedOf_mem_names hm
  have hstore := migrationLoop_ok_is_applied exec ts hok
  refine ⟨hnap, by rw [hrun]; rfl, ?_, ?_, ?_, ?_, ?_, ?_⟩
  · rw [hevents, hdrop]
    exact hsplit
  · intro m hm
    rw [hdrop] at hm
    rw [hstore m]
    have hnotapp : m ∉ r.appliedNames := fun hc =>
      hdisj (happre m hc) (List.mem_cons_of_mem nf hm)
    rw [decide_eq_false hnotapp, Bool.or_false]
  · intro m hm
    rw [hstore m, decide_eq_true hm, Bool.or_true]
  · exact (migrationLoop_ok_filter exec2 ts2 hnd hrun2).1
  · rw [(migrationLoop_ok_filter exec2 ts2 hnd hrun2).1, List.mem_filter]
    refine ⟨?_, by simp [hnap]⟩
    rw [hsplit]
    exact List.mem_append_right pre (List.mem_cons_self nf post)
  · intro m hm hc
    rw [(migrationLoop_ok_filter exec2 ts2 hnd hrun2).1, List.mem_filter] at hc
    have hap : is_migration_applied r.store m = true := by
      rw [hstore m, decide_eq_true hm, Bool.or_true]
    simp [hap] at hc

/-- Witness for C2: three pending migrations of which the second fails; the
first run records exactly the first, and the fixed second run applies the
second and third without re-applying the first. -/
theorem claim2_fail_fast_witness :
    (["001-a.sql", "002-b.sql", "003-c.sql"] : List String).Nodup ∧
    migrationLoop wExecFail2 wTs ["001-a.sql", "002-b.sql", "003-c.sql"] 0 none =
      .failed "002-b.sql"
        ⟨1, some [⟨"001-a.sql", "applied", "2024-01-01 00:00:00"⟩],
          [.applied "001-a.sql"]⟩ ∧
    is_migration_applied
      (⟨1, some [⟨"001-a.sql", "applied", "2024-01-01 00:00:00"⟩],
        [.applied "001-a.sql"]⟩ : AppliedReport Nat).store "002-b.sql" = false ∧
    (migrationLoop wExecFail2 wTs ["001-a.sql", "002-b.sql", "003-c.sql"] 0 none).exitCode
      = 1 ∧
    (⟨3, some [⟨"001-a.sql", "applied", "2024-01-01 00:00:00"⟩,
        ⟨"002-b.sql", "applied", "2024-01-01 00:00:00"⟩,
        ⟨"003-c.sql", "applied", "2024-01-01 00:00:00"⟩],
      [.skipped "001-a.sql", .applied "002-b.sql",
        .applied "003-c.sql"]⟩ : AppliedReport Nat).appliedNames =
      ["001-a.sql", "002-b.sql", "003-c.sql"].filter
        (fun m => !is_migration_applied
          (⟨1, some [⟨"001-a.sql", "applied", "2024-01-01 00:00:00"⟩],
            [.applied "001-a.sql"]⟩ : AppliedReport Nat).store m) ∧
    "002-b.sql" ∈
      (⟨3, some [⟨"001-a.sql", "applied", "2024-01-01 00:00:00"⟩,
          ⟨"002-b.sql", "applied", "2024-01-01 00:00:00"⟩,
          ⟨"003-c.sql", "applied", "2024-01-01 00:00:00"⟩],
        [.skipped "001-a.sql", .applied "002-b.sql",
          .applied "003-c.sql"]⟩ : AppliedReport Nat).appliedNames := by
  have h := claim2_fail_fast wExecFail2 wExecOk wTs wTs
    ["001-a.sql", "002-b.sql", "003-c.sql"] 0 none "002-b.sql"
    ⟨1, some [⟨"001-a.sql", "applied", "2024-01-01 00:00:00"⟩], [.applied "001-a.sql"]⟩
    ⟨3, some [⟨"001-a.sql", "applied", "2024-01-01 00:00:00"⟩,
        ⟨"002-b.sql", "applied", "2024-01-01 00:00:00"⟩,
        ⟨"003-c.sql", "applied", "2024-01-01 00:00:00"⟩],
      [.skipped "001-a.sql", .applied "002-b.sql", .applied "003-c.sql"]⟩
    (by decide) (by decide) (by decide)
  exact ⟨by decide, by decide, h.1, h.2.1, h.2.2.2.2.2.1, h.2.2.2.2.2.2.1⟩

/-- C3: immediately after a fully successful run, a second run over the same
migration set performs zero writes: whatever executor and timestamp source the
second run uses, it returns with the database and record store unchanged,
every discovered migration skipped, and an empty `appliedNames`. -/
theorem claim3_idempotent {δ : Type} (exec exec2 : String → δ → Option δ)
    (ts ts2 : String → String) (names : List String) (db : δ)
    (store : Option StatusFile) (r : AppliedReport δ)
    (hrun : migrationLoop exec ts names db store = .ok r) :
    migrationLoop exec2 ts2 names r.db r.store =
      .ok ⟨r.db, r.store, names.map .skipped⟩ ∧
    (AppliedReport.mk r.db r.store (names.map .skipped)).appliedNames = [] ∧
    (AppliedReport.mk r.db r.store (names.map .skipped)).skippedNames = names := by
  have hall := migrationLoop_ok_all_applied exec ts hrun
  exact ⟨migrationLoop_skip_all exec2 ts2 hall, appliedOf_map_skipped names,
    skippedOf_map_skipped names⟩

/-- Witness for C3: after a bootstrap run that applies two migrations, a
second run — even with an executor whose bodies would fail — changes nothing
and applies nothing. -/
theorem claim3_idempotent_witness :
    migrationLoop wExecOk wTs ["001-a.sql", "002-b.sql"] 0 none =
      .ok ⟨2, some [⟨"001-a.sql", "applied", "2024-01-01 00:00:00"⟩,
          ⟨"002-b.sql", "applied", "2024-01-01 00:00:00"⟩],
        [.applied "001-a.sql", .applied "002-b.sql"]⟩ ∧
    migrationLoop wExecFail2 wTs ["001-a.sql", "002-b.sql"]
      (⟨2, some [⟨"001-a.sql", "applied", "2024-01-01 00:00:00"⟩,
          ⟨"002-b.sql", "applied", "2024-01-01 00:00:00"⟩],
        [.applied "001-a.sql", .applied "002-b.sql"]⟩ : AppliedReport Nat).db
      (⟨2, some [⟨"001-a.sql", "applied", "2024-01-01 00:00:00"⟩,
          ⟨"002-b.sql", "applied", "2024-01-01 00:00:00"⟩],
        [.applied "001-a.sql", .applied "002-b.sql"]⟩ : AppliedReport Nat).store =
      .ok ⟨(⟨2, some [⟨"001-a.sql", "applied", "2024-01-01 00:00:00"⟩,
          ⟨"002-b.sql", "applied", "2024-01-01 00:00:00"⟩],
        [.applied "001-a.sql", .applied "002-b.sql"]⟩ : AppliedReport Nat).db,
        (⟨2, some [⟨"001-a.sql", "applied", "2024-01-01 00:00:00"⟩,
          ⟨"002-b.sql", "applied", "2024-01-01 00:00:00"⟩],
        [.applied "001-a.sql", .applied "002-b.sql"]⟩ : AppliedReport Nat).store,
        ["001-a.sql", "002-b.sql"].map .skipped⟩ := by
  have h := claim3_idempotent wExecOk wExecFail2 wTs wTs ["001-a.sql", "002-b.sql"] 0 none
    ⟨2, some [⟨"001-a.sql", "applied", "2024-01-01 00:00:00"⟩,
        ⟨"002-b.sql", "applied", "2024-01-01 00:00:00"⟩],
      [.applied "001-a.sql", .applied "002-b.sql"]⟩
    (by decide)
  exact ⟨by decide, h.1⟩

/-- C4: `applyOne` is transactional and records only after success.  In the
TypeScript runner the body runs between `BEGIN` and `COMMIT`: a succeeding
body commits its result, a failing body triggers `ROLLBACK` and the committed
database state is exactly the one from before the attempt.  In the entrypoint
loop the applied record is written exactly when `psql` succeeds, and a failing
`applyOne` writes no record, leaves the store untouched, and leaves the
migration pending for the next run. -/
theorem claim4_applyOne_transactional {δ : Type} (bodyS bodyF : δ → Option δ)
    (db dbS : δ) (execS execF : String → δ → Option δ) (ts : String → String)
    (n : String) (rest : List String) (db0 db0' : δ) (store : Option StatusFile)
    (hS : bodyS db = some dbS) (hF : bodyF db = none)
    (hexS : execS n db0 = some db0') (hexF : execF n db0 = none)
    (hpend : is_migration_applied store n = false) :
    runUnreadMessageMigration true true bodyS db = ⟨0, dbS, true⟩ ∧
    runUnreadMessageMigration true true bodyF db = ⟨1, db, true⟩ ∧
    applyOne execS ts n db0 store =
      some (db0', mark_migration_applied store n (ts n)) ∧
    is_migration_applied (some (mark_migration_applied store n (ts n))) n = true ∧
    applyOne execF ts n db0 store = none ∧
    migrationLoop execF ts (n :: rest) db0 store = .failed n ⟨db0, store, []⟩ ∧
    is_migration_applied
      (migrationLoop execF ts (n :: rest) db0 store).report.store n = false := by
  refine ⟨runner_commit hS, runner_rollback hF, applyOne_eq_some ts store hexS,
    is_applied_mark_self store n (ts n), applyOne_eq_none ts store hexF, ?_, ?_⟩
  · exact migrationLoop_cons_fail execF ts rest hpend hexF
  · rw [migrationLoop_cons_fail execF ts rest hpend hexF]
    exact hpend

/-- Witness for C4: a counter database, a failing and a succeeding body, and
a pending migration whose executor fails. -/
theorem claim4_applyOne_transactional_witness :
    runUnreadMessageMigration true true (fun d : Nat => some (d + 1)) 5 = ⟨0, 6, true⟩ ∧
    runUnreadMessageMigration true true (fun _ : Nat => (none : Option Nat)) 5 =
      ⟨1, 5, true⟩ ∧
    applyOne wExecOk wTs "002-b.sql" 5 wStore1 =
      some (6, mark_migration_applied wStore1 "002-b.sql" (wTs "002-b.sql")) ∧
    is_migration_applied
      (some (mark_migration_applied wStore1 "002-b.sql" (wTs "002-b.sql")))
      "002-b.sql" = true ∧
    applyOne wExecFail2 wTs "002-b.sql" 5 wStore1 = none ∧
    migrationLoop wExecFail2 wTs ["002-b.sql", "003-c.sql"] 5 wStore1 =
      .failed "002-b.sql" ⟨5, wStore1, []⟩ ∧
    is_migration_applied
      (migrationLoop wExecFail2 wTs ["002-b.sql", "003-c.sql"] 5 wStore1).report.store
      "002-b.sql" = false :=
  claim4_applyOne_transactional (fun d => some (d + 1)) (fun _ => none) 5 6
    wExecOk wExecFail2 wTs "002-b.sql" ["003-c.sql"] 5 6 wStore1
    rfl rfl (by decide) (by decide) (by decide)

/-- C5: migrations are discovered in strictly increasing lexicographic
file-name order, and a successful run processes (applies or skips) them in
exactly that order, with no reordering: the event trace lists the discovered
names verbatim. -/
theorem claim5_lexicographic_order {δ : Type} (exec : String → δ → Option δ)
    (ts : String → String) (files : List String) (db : δ)
    (store : Option StatusFile) (r : AppliedReport δ) (hnd : files.Nodup)
    (hrun : migrationLoop exec ts (discoverMigrations files) db store = .ok r) :
    (discoverMigrations files).Sorted (· ≤ ·) ∧
    (discoverMigrations files).Sorted (· < ·) ∧
    r.events.map MigrationEvent.name = discoverMigrations files := by
  exact ⟨discoverMigrations_sorted_le files, discoverMigrations_sorted_lt hnd,
    migrationLoop_ok_events exec ts hrun⟩

/-- Witness for C5: an unsorted directory listing with a non-`.sql` entry; the
run processes the `.sql` files in ascending name order. -/
theorem claim5_lexicographic_order_witness :
    (["002-b.sql", "001-a.sql", "README.md"] : List String).Nodup ∧
    migrationLoop wExecOk wTs
      (discoverMigrations ["002-b.sql", "001-a.sql", "README.md"]) 0 none =
      .ok ⟨2, some [⟨"001-a.sql", "applied", "2024-01-01 00:00:00"⟩,
          ⟨"002-b.sql", "applied", "2024-01-01 00:00:00"⟩],
        [.applied "001-a.sql", .applied "002-b.sql"]⟩ ∧
    discoverMigrations ["002-b.sql", "001-a.sql", "README.md"] =
      ["001-a.sql", "002-b.sql"] ∧
    (⟨2, some [⟨"001-a.sql", "applied", "2024-01-01 00:00:00"⟩,
        ⟨"002-b.sql", "applied", "2024-01-01 00:00:00"⟩],
      [.applied "001-a.sql", .applied "002-b.sql"]⟩ : AppliedReport Nat).events.map
        MigrationEvent.name =
      discoverMigrations ["002-b.sql", "001-a.sql", "README.md"] := by
  have h := claim5_lexicographic_order wExecOk wTs
    ["002-b.sql", "001-a.sql", "README.md"] 0 none
    ⟨2, some [⟨"001-a.sql", "applied", "2024-01-01 00:00:00"⟩,
        ⟨"002-b.sql", "applied", "2024-01-01 00:00:00"⟩],
      [.applied "001-a.sql", .applied "002-b.sql"]⟩
    (by decide) (by decide)
  exact ⟨by decide, by decide, by decide, h.2.2⟩

/-- C6: the record store is append-only under the applicator: starting from
any store the applicator itself can produce (every record has status
`applied`), a run — successful or failed — leaves every existing record in
place unmodified (no update or delete path is exercised), and the records
added are exactly one `applied` record per migration applied in the run, each
for a name that had no record before, with no name recorded twice. -/
theorem claim6_records_write_once {δ : Type} (exec : String → δ → Option δ)
    (ts : String → String) (names : List String) (db : δ) (store : Option StatusFile)
    (hall : ∀ e ∈ store.getD [], e.status = "applied") :
    ((migrationLoop exec ts names db store).report.store.getD []).take
        (store.getD []).length = store.getD [] ∧
    (((migrationLoop exec ts names db store).report.store.getD []).drop
        (store.getD []).length).map MigrationRecord.name =
      (migrationLoop exec ts names db store).report.appliedNames ∧
    (∀ e ∈ (migrationLoop exec ts names db store).report.store.getD [],
        e.status = "applied") ∧
    (∀ e ∈ ((migrationLoop exec ts names db store).report.store.getD []).drop
        (store.getD []).length,
        ((store.getD []).any fun e2 => decide (e2.name = e.name)) = false) ∧
    ((((migrationLoop exec ts names db store).report.store.getD []).drop
        (store.getD []).length).map MigrationRecord.name).Nodup := by
  obtain ⟨new, h1, h2, h3, h4, h5⟩ := @migrationLoop_append_only δ exec ts
    names db store hall
  rw [h1, List.take_left, List.drop_left]
  refine ⟨rfl, h3, ?_, h4, h5⟩
  intro e he
  rw [List.mem_append] at he
  rcases he with he | he
  · exact hall e he
  · exact h2 e he

/-- Witness for C6: a store with one applied record; a run that applies one
new migration keeps the existing record first and unchanged and appends one
record. -/
theorem claim6_records_write_once_witness :
    (∀ e ∈ (wStore1.getD []), e.status = "applied") ∧
    ((migrationLoop wExecOk wTs ["002-b.sql"] 0 wStore1).report.store.getD []).take
        (wStore1.getD []).length = wStore1.getD [] ∧
    (((migrationLoop wExecOk wTs ["002-b.sql"] 0 wStore1).report.store.getD []).drop
        (wStore1.getD []).length).map MigrationRecord.name =
      (migrationLoop wExecOk wTs ["002-b.sql"] 0 wStore1).report.appliedNames ∧
    ((((migrationLoop wExecOk wTs ["002-b.sql"] 0 wStore1).report.store.getD []).drop
        (wStore1.getD []).length).map MigrationRecord.name).Nodup := by
  have h := claim6_records_write_once wExecOk wTs ["002-b.sql"] 0 wStore1 (by decide)
  exact ⟨by decide, h.1, h.2.1, h.2.2.2.2⟩

/-- C7: with no record store yet, `isApplied` is false for every name; hence a
bootstrap run whose migration bodies all succeed exits 0, applies every
discovered migration, and creates exactly one applied record per discovered
name, in order. -/
theorem claim7_bootstrap {δ : Type} (exec : String → δ → Option δ)
    (ts : String → String) (files : List String) (db : δ)
    (hnd : files.Nodup) (htotal : ∀ n d, (exec n d).isSome = true) :
    (∀ n, is_migration_applied none n = false) ∧
    (migrationLoop exec ts (discoverMigrations files) db none).exitCode = 0 ∧
    (migrationLoop exec ts (discoverMigrations files) db none).report.appliedNames =
      discoverMigrations files ∧
    ((migrationLoop exec ts (discoverMigrations files) db none).report.store.getD
        []).map MigrationRecord.name = discoverMigrations files := by
  obtain ⟨r, hr⟩ := migrationLoop_ok_of_total ts htotal (discoverMigrations files) db none
  have hnd' := discoverMigrations_nodup hnd
  have happ : r.appliedNames = discoverMigrations files := by
    rw [(migrationLoop_ok_filter exec ts hnd' hr).1]
    apply List.filter_eq_self.mpr
    intro a _
    rfl
  obtain ⟨new, h1, h2, h3, h4, h5⟩ := @migrationLoop_append_only δ exec ts
    (discoverMigrations files) db none (by intro e he; simp at he)
  refine ⟨fun n => rfl, by rw [hr]; rfl, ?_, ?_⟩
  · rw [hr]
    exact happ
  · rw [h1]
    show List.map MigrationRecord.name ([] ++ new) = _
    rw [List.nil_append, h3, hr]
    exact happ

/-- Witness for C7: two pending files discovered in sorted order from an
absent store; both are applied and both records are created. -/
theorem claim7_bootstrap_witness :
    is_migration_applied none "001-a.sql" = false ∧
    (migrationLoop wExecOk wTs
      (discoverMigrations ["002-b.sql", "001-a.sql"]) 0 none).exitCode = 0 ∧
    (migrationLoop wExecOk wTs
        (discoverMigrations ["002-b.sql", "001-a.sql"]) 0 none).report.appliedNames =
      discoverMigrations ["002-b.sql", "001-a.sql"] ∧
    ((migrationLoop wExecOk wTs
        (discoverMigrations ["002-b.sql", "001-a.sql"]) 0 none).report.store.getD
        []).map MigrationRecord.name = discoverMigrations ["002-b.sql", "001-a.sql"] := by
  have h := claim7_bootstrap wExecOk wTs ["002-b.sql", "001-a.sql"] 0
    (by decide) (fun _ _ => rfl)
  exact ⟨h.1 "001-a.sql", h.2.1, h.2.2.1, h.2.2.2⟩

/-- C8: the migration phase exits 0 on full success — including when nothing
is pending or no migration is discovered — and 1 when a migration application
fails; the TypeScript runner exits 1 on a failed connection, 1 on a missing
migration file (discovery failure, before any database write), 1 on a failed
body, and 0 on success. -/
theorem claim8_exit_codes {δ : Type} (exec exec2 : String → δ → Option δ)
    (ts ts2 : String → String) (names names2 : List String) (db db2 db3 dS : δ)
    (store store2 : Option StatusFile) (nf : String) (r r2 : AppliedReport δ)
    (bodyS bodyF : δ → Option δ)
    (hfail : migrationLoop exec ts names db store = .failed nf r)
    (hok : migrationLoop exec2 ts2 names2 db2 store2 = .ok r2)
    (hbS : bodyS db3 = some dS) (hbF : bodyF db3 = none) :
    (migrationLoop exec ts ([] : List String) db store).exitCode = 0 ∧
    (migrationLoop exec2 ts2 names2 db2 store2).exitCode = 0 ∧
    (migrationLoop exec ts names db store).exitCode = 1 ∧
    (runUnreadMessageMigration false true bodyS db3).exitCode = 1 ∧
    (runUnreadMessageMigration true false bodyS db3).exitCode = 1 ∧
    (runUnreadMessageMigration true true bodyF db3).exitCode = 1 ∧
    (runUnreadMessageMigration true true bodyS db3).exitCode = 0 := by
  refine ⟨rfl, ?_, ?_, ?_, ?_, ?_, ?_⟩
  · rw [hok]
    rfl
  · rw [hfail]
    rfl
  · rw [runner_connect_fail]
  · rw [runner_file_missing]
  · rw [runner_rollback hbF]
  · rw [runner_commit hbS]

/-- Witness for C8: a failing three-migration run, a succeeding empty run, and
the four runner exit paths on a counter database. -/
theorem claim8_exit_codes_witness :
    (migrationLoop wExecFail2 wTs ([] : List String) 0 none).exitCode = 0 ∧
    (migrationLoop wExecOk wTs ["001-a.sql"] 0 none).exitCode = 0 ∧
    (migrationLoop wExecFail2 wTs ["001-a.sql", "002-b.sql", "003-c.sql"] 0
      none).exitCode = 1 ∧
    (runUnreadMessageMigration false true (fun d : Nat => some (d + 1)) 0).exitCode = 1 ∧
    (runUnreadMessageMigration true false (fun d : Nat => some (d + 1)) 0).exitCode = 1 ∧
    (runUnreadMessageMigration true true (fun _ : Nat => (none : Option Nat)) 0).exitCode
      = 1 ∧
    (runUnreadMessageMigration true true (fun d : Nat => some (d + 1)) 0).exitCode = 0 :=
  claim8_exit_codes wExecFail2 wExecOk wTs wTs
    ["001-a.sql", "002-b.sql", "003-c.sql"] ["001-a.sql"] 0 0 0 1 none none
    "002-b.sql"
    ⟨1, some [⟨"001-a.sql", "applied", "2024-01-01 00:00:00"⟩], [.applied "001-a.sql"]⟩
    ⟨1, some [⟨"001-a.sql", "applied", "2024-01-01 00:00:00"⟩], [.applied "001-a.sql"]⟩
    (fun d => some (d + 1)) (fun _ => none)
    (by decide) (by decide) rfl rfl

/-- C9: while the database is unreachable the entrypoint polls at a fixed
2-second interval with an unbounded retry count: if every probe fails the wait
loop runs forever (it returns for no fuel bound) and no migration is ever
applied; the loop exits exactly at the first successful probe, after which the
migration phase proceeds. -/
theorem claim9_wait_unbounded {δ : Type} (reachable reachable2 : Nat → Bool)
    (fuel m : Nat) (exec : String → δ → Option δ) (ts : String → String)
    (dirExists : Bool) (files : List String) (db : δ) (store : Option StatusFile)
    (hterm : waitLoopFuel reachable fuel 0 = some m)
    (hnever : ∀ j, reachable2 j = false) :
    reachable m = true ∧
    (∀ j < m, reachable j = false) ∧
    (∀ fuel2, waitLoopFuel reachable2 fuel2 0 = none) ∧
    (∀ fuel2, entrypointRun reachable2 fuel2 exec ts dirExists files db store = none) ∧
    entrypointRun reachable fuel exec ts dirExists files db store =
      some (applyPending exec ts dirExists files db store) ∧
    (∀ j, attemptTime (j + 1) - attemptTime j = retrySleepSeconds) := by
  obtain ⟨h1, _, h3⟩ := waitLoopFuel_some hterm
  refine ⟨h1, fun j hj => h3 j (Nat.zero_le j) hj,
    fun fuel2 => waitLoopFuel_none hnever fuel2 0, ?_, ?_, ?_⟩
  · intro fuel2
    simp only [entrypointRun, waitLoopFuel_none hnever fuel2 0]
  · simp only [entrypointRun, hterm]
  · intro j
    simp only [attemptTime, retrySleepSeconds]
    omega

/-- Witness for C9: probes succeed first at attempt 3; with never-succeeding
probes the loop yields nothing for fuel 5 and the entrypoint applies no
migration. -/
theorem claim9_wait_unbounded_witness :
    waitLoopFuel (fun j => decide (j = 3)) 10 0 = some 3 ∧
    (fun j : Nat => decide (j = 3)) 3 = true ∧
    (fun j : Nat => decide (j = 3)) 1 = false ∧
    waitLoopFuel (fun _ : Nat => false) 5 0 = none ∧
    entrypointRun (fun _ : Nat => false) 5 wExecOk wTs true ["001-a.sql"] 0 none =
      none ∧
    entrypointRun (fun j => decide (j = 3)) 10 wExecOk wTs true ["001-a.sql"] 0 none =
      some (applyPending wExecOk wTs true ["001-a.sql"] 0 none) ∧
    attemptTime 1 - attemptTime 0 = retrySleepSeconds := by
  have h := claim9_wait_unbounded (fun j => decide (j = 3)) (fun _ => false) 10 3
    wExecOk wTs true ["001-a.sql"] 0 none (by decide) (fun _ => rfl)
  exact ⟨by decide, h.1, h.2.1 1 (by decide), h.2.2.1 5, h.2.2.2.1 5,
    h.2.2.2.2.1, h.2.2.2.2.2 0⟩

/-- C10: the standalone runner targets the single hard-coded file
`003-add-unread-message-tracking.sql` and runs its body unconditionally on
every invocation — it consults no record store (the store component of the
world passes through untouched), so two consecutive invocations both execute
the body; and if the file does not exist it exits 1 with the database
untouched, before any write. -/
theorem claim10_runner_unconditional {δ : Type} (body : δ → Option δ) (db : δ)
    (store : Option StatusFile) :
    migrationFileName = "003-add-unread-message-tracking.sql" ∧
    runUnreadMessageMigration true false body db = ⟨1, db, false⟩ ∧
    (runUnreadMessageMigration true true body db).bodyExecuted = true ∧
    (runUnreadMessageMigration true true body
        ((runUnreadMessageMigration true true body db).db)).bodyExecuted = true ∧
    (runUnreadMessageMigrationW true true body (db, store)).2 = store := by
  have hbe : ∀ d : δ, (runUnreadMessageMigration true true body d).bodyExecuted = true := by
    intro d
    cases hb : body d with
    | none => rw [runner_rollback hb]
    | some d' => rw [runner_commit hb]
  exact ⟨rfl, runner_file_missing body db, hbe db, hbe _, rfl⟩
